import Mathlib

/-!
Shallow embedding of `src/server.js` (marion-backend): an Express/Mongoose
backend with user signup/login (bcrypt-hashed passwords, JWT tokens) and
CRUD + like/dislike over posts, with ownership checks on update/delete.

Mongoose store state is modelled as explicit lists of records with
store-assigned numeric ids; each route handler becomes a pure function
from the request data and the store to an HTTP status and the new store.
-/

/-- A stored user record, per the `userSchema` in `server.js`
(`username` required unique, `password` required; `password` holds the
bcrypt hash as stored by `POST /signup`).  `id` models the store-assigned
`_id`. -/
structure User where
  id : Nat
  username : String
  password : String
  deriving Repr, DecidableEq

/-- A stored post record, per the `postSchema` in `server.js`
(`title`/`content` required strings, `user` a required reference to the
owning user's id, `likes`/`dislikes` numbers defaulting to 0). -/
structure Post where
  id : Nat
  title : String
  content : String
  user : Nat
  likes : Nat
  dislikes : Nat
  deriving Repr, DecidableEq

/-- The persistent store: the `User` and `Post` collections, plus the
counters from which the store assigns fresh `_id`s. -/
structure Store where
  users : List User
  posts : List Post
  nextUserId : Nat
  nextPostId : Nat
  deriving Repr, DecidableEq

/-- `User.findOne({ username })`: first stored user with the given
username. -/
def findOneUser (users : List User) (username : String) : Option User :=
  users.find? (fun u => u.username = username)

/-- `User.findById` on the modelled `_id`. -/
def findUserById (users : List User) (i : Nat) : Option User :=
  users.find? (fun u => u.id = i)

/-- `Post.findById` on the modelled `_id`. -/
def findPost (posts : List Post) (i : Nat) : Option Post :=
  posts.find? (fun p => p.id = i)

/-- JavaScript falsiness of an optional string field (`!username`):
true when the field is absent or the empty string. -/
def falsyStr : Option String → Bool
  | none => true
  | some s => s = ""

/-- A JWT payload as signed by `POST /login`:
`{ userId: user._id, username: user.username }` plus the `exp` claim
added by `expiresIn`. -/
structure JwtPayload where
  userId : Nat
  username : String
  exp : Nat
  deriving Repr, DecidableEq

/-- A JWT as seen by `jsonwebtoken`: either a well-formed token carrying
a payload and the secret it was signed with, or a malformed string. -/
inductive Token where
  | signed (payload : JwtPayload) (secret : String)
  | malformed (raw : String)
  deriving Repr, DecidableEq

/-- `jwt.sign({ userId, username }, secret, { expiresIn: '1h' })` at time
`now` (seconds): the `exp` claim is one hour (3600 s) from issuance. -/
def jwtSign (userId : Nat) (username : String) (secret : String) (now : Nat) : Token :=
  .signed ⟨userId, username, now + 3600⟩ secret

/-- `jwt.verify(token, secret)` at time `now`: fails on a malformed
token, on a signature made with a different secret, and on an expired
token (`exp ≤ now`); otherwise returns the payload. -/
def jwtVerify (t : Token) (secret : String) (now : Nat) : Option JwtPayload :=
  match t with
  | .malformed _ => none
  | .signed p s =>
      if s = secret then
        if p.exp ≤ now then none else some p
      else none

/-- JavaScript `String.prototype.split` with a single-character
separator, on the underlying character list: splits at every occurrence,
keeping empty fragments. -/
def splitChar (sep : Char) : List Char → List (List Char)
  | [] => [[]]
  | c :: cs =>
      let rest := splitChar sep cs
      if c = sep then [] :: rest
      else
        match rest with
        | [] => [[c]]
        | r :: rs => (c :: r) :: rs

/-- `authHeader.split(' ')` as a list of strings. -/
def jsSplit (s : String) : List String :=
  (splitChar ' ' s.data).map String.mk

/-- The token extraction of `authenticateToken`:
`const token = authHeader && authHeader.split(' ')[1]`, with the
subsequent falsiness check `if (!token)` folded in (an absent header, a
header with no second space-separated part, or an empty second part all
yield no token). -/
def extractToken (authHeader : Option String) : Option String :=
  match authHeader with
  | none => none
  | some h =>
      match (jsSplit h)[1]? with
      | none => none
      | some t => if t = "" then none else some t

/-- Outcome of the `authenticateToken` middleware. -/
inductive AuthResult where
  | unauthenticated
  | forbidden
  | ok (identity : JwtPayload)
  deriving Repr, DecidableEq

/-- The `authenticateToken` middleware: 401 when no token is extracted
from the header, 403 when `jwt.verify` fails, otherwise the decoded
payload becomes `req.user`.  `decode` maps the raw token string to the
token it denotes. -/
def authenticateToken (decode : String → Token) (secret : String) (now : Nat)
    (authHeader : Option String) : AuthResult :=
  match extractToken authHeader with
  | none => .unauthenticated
  | some raw =>
      match jwtVerify (decode raw) secret now with
      | none => .forbidden
      | some p => .ok p

/-- Modelled from the spec: `bcrypt.hash(password, 10)` is an external
library call (the `bcrypt` package is not part of this repository's
source).  The spec describes it as a salted one-way hash with a fixed,
publicly-known work factor whose output never equals the plaintext; we
model it as the bcrypt-formatted string `"$2b$10$" ++ password`, which
is injective and never equal to its input. -/
def bcryptHash (password : String) : String :=
  "$2b$10$" ++ password

/-- Modelled from the spec: `bcrypt.compare(password, hash)` succeeds
exactly when `hash` is the hash of `password`. -/
def bcryptCompare (password stored : String) : Bool :=
  bcryptHash password = stored

/-- `POST /signup`: 400 when username or password is falsy, 409 when a
user with the username already exists, otherwise hash the password,
persist the user and answer 201. -/
def signup (st : Store) (username password : Option String) : Nat × Store :=
  if falsyStr username || falsyStr password then (400, st)
  else
    match findOneUser st.users (username.getD "") with
    | some _ => (409, st)
    | none =>
        (201, { st with
                  users := st.users ++
                    [⟨st.nextUserId, username.getD "", bcryptHash (password.getD "")⟩],
                  nextUserId := st.nextUserId + 1 })

/-- `POST /login`: 400 when username or password is falsy, 404 when no
user has the username, 401 when the bcrypt comparison fails, otherwise
200 with a signed token embedding `{ userId, username }` expiring one
hour from `now`. -/
def login (secret : String) (now : Nat) (st : Store)
    (username password : Option String) : Nat × Option Token :=
  if falsyStr username || falsyStr password then (400, none)
  else
    match findOneUser st.users (username.getD "") with
    | none => (404, none)
    | some u =>
        if bcryptCompare (password.getD "") u.password then
          (200, some (jwtSign u.id u.username secret now))
        else (401, none)

/-- Mongoose `required: true` validation for the string fields of
`postSchema` at `save()` time: a required string must be present and
non-empty, otherwise `save()` rejects with a `ValidationError` (caught
and mapped to 500). -/
def validPostFields (title content : Option String) : Bool :=
  match title, content with
  | some t, some c => decide (t ≠ "") && decide (c ≠ "")
  | _, _ => false

/-- `POST /posts` (behind `authenticateToken`): builds a post owned by
`req.user.userId` and saves it; a schema-validation failure at `save()`
is caught and answered 500. -/
def createPost (decode : String → Token) (secret : String) (now : Nat)
    (st : Store) (authHeader : Option String)
    (title content : Option String) : Nat × Store :=
  match authenticateToken decode secret now authHeader with
  | .unauthenticated => (401, st)
  | .forbidden => (403, st)
  | .ok ident =>
      if validPostFields title content then
        (201, { st with
                  posts := st.posts ++
                    [⟨st.nextPostId, title.getD "", content.getD "", ident.userId, 0, 0⟩],
                  nextPostId := st.nextPostId + 1 })
      else (500, st)

/-- One element of the `GET /posts` response:
`Post.find().populate('user', 'username')` replaces the `user` reference
by the referenced user's `_id` and `username` only (or `null` when the
reference dangles). -/
structure PostView where
  id : Nat
  title : String
  content : String
  user : Option (Nat × String)
  likes : Nat
  dislikes : Nat
  deriving Repr, DecidableEq

/-- `GET /posts`: every stored post, with the owner populated down to
`{_id, username}`. -/
def listPosts (st : Store) : List PostView :=
  st.posts.map (fun p =>
    ⟨p.id, p.title, p.content,
      (findUserById st.users p.user).map (fun u => (u.id, u.username)),
      p.likes, p.dislikes⟩)

/-- `DELETE /posts/:id` (behind `authenticateToken`): 404 when the post
is absent, 403 when `post.user.toString() !== req.user.userId`,
otherwise `findByIdAndDelete` removes it and the route answers 200. -/
def deletePost (decode : String → Token) (secret : String) (now : Nat)
    (st : Store) (authHeader : Option String) (postId : Nat) : Nat × Store :=
  match authenticateToken decode secret now authHeader with
  | .unauthenticated => (401, st)
  | .forbidden => (403, st)
  | .ok ident =>
      match findPost st.posts postId with
      | none => (404, st)
      | some post =>
          if post.user ≠ ident.userId then (403, st)
          else (200, { st with posts := st.posts.filter (fun p => ¬ p.id = postId) })

/-- `PUT /posts/:id` (behind `authenticateToken`): 404 when the post is
absent, 403 when the caller is not the owner, otherwise overwrite
`title` and `content` and `save()`; a schema-validation failure at
`save()` (empty or absent field) is caught and answered 500 with the
store unchanged. -/
def updatePost (decode : String → Token) (secret : String) (now : Nat)
    (st : Store) (authHeader : Option String) (postId : Nat)
    (title content : Option String) : Nat × Store :=
  match authenticateToken decode secret now authHeader with
  | .unauthenticated => (401, st)
  | .forbidden => (403, st)
  | .ok ident =>
      match findPost st.posts postId with
      | none => (404, st)
      | some post =>
          if post.user ≠ ident.userId then (403, st)
          else if validPostFields title content then
            (200, { st with
                      posts := st.posts.map (fun p =>
                        if p.id = postId then
                          { p with title := title.getD "", content := content.getD "" }
                        else p) })
          else (500, st)

/-- `POST /posts/:id/like` (no authentication): 404 when the post is
absent, otherwise `post.likes = (post.likes || 0) + 1` is saved and the
route answers 200. -/
def likePost (st : Store) (postId : Nat) : Nat × Store :=
  match findPost st.posts postId with
  | none => (404, st)
  | some _ =>
      (200, { st with
                posts := st.posts.map (fun p =>
                  if p.id = postId then { p with likes := p.likes + 1 } else p) })

/-- `POST /posts/:id/dislike` (no authentication): 404 when the post is
absent, otherwise `post.dislikes = (post.dislikes || 0) + 1` is saved
and the route answers 200. -/
def dislikePost (st : Store) (postId : Nat) : Nat × Store :=
  match findPost st.posts postId with
  | none => (404, st)
  | some _ =>
      (200, { st with
                posts := st.posts.map (fun p =>
                  if p.id = postId then { p with dislikes := p.dislikes + 1 } else p) })

/-! ### Helper lemmas about store lookups -/

/-- `findPost` returns a post carrying the looked-up id. -/
theorem findPost_id {l : List Post} {i : Nat} {p : Post}
    (h : findPost l i = some p) : p.id = i := by
  have := List.find?_some h
  simpa using this

/-- The found user carries the looked-up username. -/
theorem findOneUser_username {l : List User} {u : String} {v : User}
    (h : findOneUser l u = some v) : v.username = u := by
  have := List.find?_some h
  simpa using this

/-- Appending records cannot hide an existing first match. -/
theorem find?_append_some {α : Type} {p : α → Bool} {l1 : List α} {a : α}
    (l2 : List α) (h : l1.find? p = some a) : (l1 ++ l2).find? p = some a := by
  simp [List.find?_append, h]

/-- When the first list has no match, search continues in the second. -/
theorem find?_append_none {α : Type} {p : α → Bool} {l1 : List α}
    (l2 : List α) (h : l1.find? p = none) : (l1 ++ l2).find? p = l2.find? p := by
  simp [List.find?_append, h]

/-- Updating the post with id `i` in place: looking up `i` afterwards
finds the updated first match. -/
theorem findPost_map_self (l : List Post) (i : Nat) (upd : Post → Post)
    (hid : ∀ p, (upd p).id = p.id) :
    findPost (l.map fun p => if p.id = i then upd p else p) i
      = (findPost l i).map upd := by
  induction l with
  | nil => simp [findPost]
  | cons a l ih =>
      by_cases ha : a.id = i
      · simp [findPost, List.find?_cons, ha, hid a]
      · simpa [findPost, List.find?_cons, ha] using ih

/-- Updating the post with id `i` in place leaves every other lookup
unchanged. -/
theorem findPost_map_other (l : List Post) (i j : Nat) (hne : j ≠ i)
    (upd : Post → Post) (hid : ∀ p, (upd p).id = p.id) :
    findPost (l.map fun p => if p.id = i then upd p else p) j = findPost l j := by
  induction l with
  | nil => simp [findPost]
  | cons a l ih =>
      rw [List.map_cons]
      by_cases ha : a.id = i
      · have h1 : ¬ ((if a.id = i then upd a else a).id = j) := by
          rw [if_pos ha, hid a, ha]; exact fun h => hne h.symm
        have h2 : ¬ a.id = j := by rw [ha]; exact fun h => hne h.symm
        rw [findPost, List.find?_cons_of_neg _ (by simpa using h1),
            findPost, List.find?_cons_of_neg _ (by simpa using h2)]
        exact ih
      · rw [if_neg ha]
        by_cases hj : a.id = j
        · rw [findPost, List.find?_cons_of_pos _ (by simpa using hj),
              findPost, List.find?_cons_of_pos _ (by simpa using hj)]
        · rw [findPost, List.find?_cons_of_neg _ (by simpa using hj),
              findPost, List.find?_cons_of_neg _ (by simpa using hj)]
          exact ih

/-- After deleting the post with id `i`, looking up `i` finds nothing. -/
theorem findPost_filter_self (l : List Post) (i : Nat) :
    findPost (l.filter fun p => ¬ p.id = i) i = none := by
  rw [findPost, List.find?_eq_none]
  intro a ha
  have := (List.mem_filter.mp ha).2
  simpa using this

/-- Deleting the post with id `i` leaves every other lookup unchanged. -/
theorem findPost_filter_other (l : List Post) (i j : Nat) (hne : j ≠ i) :
    findPost (l.filter fun p => ¬ p.id = i) j = findPost l j := by
  induction l with
  | nil => simp [findPost]
  | cons a l ih =>
      rw [List.filter_cons]
      by_cases ha : a.id = i
      · have h2 : ¬ a.id = j := by rw [ha]; exact fun h => hne h.symm
        have h3 : findPost (a :: l) j = findPost l j := by
          rw [findPost, List.find?_cons_of_neg _ (by simpa using h2)]; rfl
        rw [if_neg (by simpa using ha), h3]
        exact ih
      · rw [if_pos (by simpa using ha)]
        by_cases hj : a.id = j
        · rw [findPost, List.find?_cons_of_pos _ (by simpa using hj),
              findPost, List.find?_cons_of_pos _ (by simpa using hj)]
        · rw [findPost, List.find?_cons_of_neg _ (by simpa using hj),
              findPost, List.find?_cons_of_neg _ (by simpa using hj)]
          exact ih

/-! ### Claim theorems -/

/-- C1: for every stored post and verified identity, `PUT /posts/:id`
and `DELETE /posts/:id` answer 403 exactly when `identity.userId`
differs from the post's owner, and succeed with 200 when it matches
(update additionally needs the saved fields to pass validation, i.e.
absent store failure); there is no other authorization path. -/
theorem update_delete_owner_only
    (decode : String → Token) (secret : String) (now : Nat) (st : Store)
    (header : Option String) (i : Nat) (title content : Option String)
    (ident : JwtPayload) (post : Post)
    (hauth : authenticateToken decode secret now header = .ok ident)
    (hp : findPost st.posts i = some post) :
    (ident.userId ≠ post.user →
      updatePost decode secret now st header i title content = (403, st)
      ∧ deletePost decode secret now st header i = (403, st))
    ∧ (ident.userId = post.user →
      (deletePost decode secret now st header i).1 = 200
      ∧ (validPostFields title content = true →
          (updatePost decode secret now st header i title content).1 = 200)) := by
  constructor
  · intro h
    constructor
    · simp [updatePost, hauth, hp, Ne.symm h]
    · simp [deletePost, hauth, hp, Ne.symm h]
  · intro h
    constructor
    · simp [deletePost, hauth, hp, h.symm]
    · intro hv
      simp [updatePost, hauth, hp, h.symm, hv]

/-- Witness for `update_delete_owner_only` at a concrete store: a post
owned by user 1, a verified identity for user 2 (mismatch) and the
resulting 403 on both mutations. -/
theorem update_delete_owner_only_witness :
    authenticateToken (fun _ => Token.signed ⟨2, "bob", 3600⟩ "s") "s" 0
        (some "Bearer t") = .ok ⟨2, "bob", 3600⟩
    ∧ findPost [⟨10, "T", "C", 1, 0, 0⟩] 10 = some ⟨10, "T", "C", 1, 0, 0⟩
    ∧ updatePost (fun _ => Token.signed ⟨2, "bob", 3600⟩ "s") "s" 0
        ⟨[], [⟨10, "T", "C", 1, 0, 0⟩], 0, 11⟩ (some "Bearer t") 10
        (some "T2") (some "C2")
        = (403, ⟨[], [⟨10, "T", "C", 1, 0, 0⟩], 0, 11⟩) := by
  refine ⟨by decide, by decide, ?_⟩
  exact ((update_delete_owner_only (fun _ => Token.signed ⟨2, "bob", 3600⟩ "s")
    "s" 0 ⟨[], [⟨10, "T", "C", 1, 0, 0⟩], 0, 11⟩ (some "Bearer t") 10
    (some "T2") (some "C2") ⟨2, "bob", 3600⟩ ⟨10, "T", "C", 1, 0, 0⟩
    (by decide) (by decide)).1 (by decide)).1

/-- C2: `authenticateToken` answers 401 exactly when no token is
extracted from the header, 403 exactly when a token is extracted but
`jwt.verify` rejects it — which happens exactly when the token is
malformed, signed with a different secret, or expired (`exp ≤ now`), so
an expired token is never accepted — and otherwise yields the embedded
payload (`userId`, `username`) as the caller's identity. -/
theorem authenticate_token_spec
    (decode : String → Token) (secret : String) (now : Nat) (header : Option String) :
    (authenticateToken decode secret now header = .unauthenticated
      ↔ extractToken header = none)
    ∧ (authenticateToken decode secret now header = .forbidden
      ↔ ∃ raw, extractToken header = some raw
          ∧ jwtVerify (decode raw) secret now = none)
    ∧ (∀ p, authenticateToken decode secret now header = .ok p
      ↔ ∃ raw, extractToken header = some raw
          ∧ jwtVerify (decode raw) secret now = some p)
    ∧ (∀ t, jwtVerify t secret now = none
      ↔ (∃ r, t = .malformed r)
        ∨ (∃ p s, t = .signed p s ∧ s ≠ secret)
        ∨ (∃ p, t = .signed p secret ∧ p.exp ≤ now)) := by
  refine ⟨?_, ?_, ?_, ?_⟩
  · cases hext : extractToken header with
    | none => simp [authenticateToken, hext]
    | some raw =>
        cases hv : jwtVerify (decode raw) secret now with
        | none => simp [authenticateToken, hext, hv]
        | some p => simp [authenticateToken, hext, hv]
  · cases hext : extractToken header with
    | none => simp [authenticateToken, hext]
    | some raw =>
        cases hv : jwtVerify (decode raw) secret now with
        | none => simp [authenticateToken, hext, hv]
        | some p => simp [authenticateToken, hext, hv]
  · intro q
    cases hext : extractToken header with
    | none => simp [authenticateToken, hext]
    | some raw =>
        cases hv : jwtVerify (decode raw) secret now with
        | none => simp [authenticateToken, hext, hv]
        | some p => simp [authenticateToken, hext, hv, eq_comm]
  · intro t
    cases t with
    | malformed r => simp [jwtVerify]
    | signed p s =>
        by_cases hs : s = secret
        · subst hs
          by_cases he : p.exp ≤ now <;> simp [jwtVerify, he]
        · simp only [jwtVerify, if_neg hs]
          constructor
          · intro _
            exact Or.inr (Or.inl ⟨p, s, rfl, hs⟩)
          · intro _
            trivial

/-- Witness for `authenticate_token_spec`: a concrete header carrying a
token signed with the right secret and a future expiry is accepted and
yields the embedded identity. -/
theorem authenticate_token_spec_witness :
    authenticateToken (fun _ => Token.signed ⟨1, "alice", 3600⟩ "s") "s" 0
        (some "Bearer t") = .ok ⟨1, "alice", 3600⟩ := by
  exact ((authenticate_token_spec (fun _ => Token.signed ⟨1, "alice", 3600⟩ "s")
      "s" 0 (some "Bearer t")).2.2.1 ⟨1, "alice", 3600⟩).mpr
    ⟨"t", by decide, by decide⟩

/-- C4: `POST /login` answers 400 when username or password is falsy
(empty or absent), 404 when no user has the username, 401 when the
bcrypt comparison fails, and otherwise 200 with a token signed with the
process-wide secret embedding the user's id and username and expiring
exactly one hour (3600 s) after issuance. -/
theorem login_spec (secret : String) (now : Nat) (st : Store)
    (username password : Option String) :
    ((falsyStr username || falsyStr password) = true →
      login secret now st username password = (400, none))
    ∧ ((falsyStr username || falsyStr password) = false →
        findOneUser st.users (username.getD "") = none →
        login secret now st username password = (404, none))
    ∧ (∀ u, (falsyStr username || falsyStr password) = false →
        findOneUser st.users (username.getD "") = some u →
        bcryptCompare (password.getD "") u.password = false →
        login secret now st username password = (401, none))
    ∧ (∀ u, (falsyStr username || falsyStr password) = false →
        findOneUser st.users (username.getD "") = some u →
        bcryptCompare (password.getD "") u.password = true →
        login secret now st username password
          = (200, some (Token.signed ⟨u.id, u.username, now + 3600⟩ secret))) := by
  refine ⟨?_, ?_, ?_, ?_⟩
  · intro hfal; simp [login, hfal]
  · intro hfal hfind; simp [login, hfal, hfind]
  · intro u hfal hfind hcmp; simp [login, hfal, hfind, hcmp]
  · intro u hfal hfind hcmp; simp [login, hfal, hfind, hcmp, jwtSign]

/-- Witness for `login_spec`: logging in with the stored user's correct
password succeeds with a token expiring one hour from now. -/
theorem login_spec_witness :
    login "s" 100 ⟨[⟨1, "alice", bcryptHash "pw"⟩], [], 2, 0⟩
        (some "alice") (some "pw")
      = (200, some (Token.signed ⟨1, "alice", 3700⟩ "s")) := by
  exact (login_spec "s" 100 ⟨[⟨1, "alice", bcryptHash "pw"⟩], [], 2, 0⟩
      (some "alice") (some "pw")).2.2.2 ⟨1, "alice", bcryptHash "pw"⟩
    (by decide) (by decide) (by decide)

/-- C7: `POST /posts/:id/like` and `/dislike` answer 404 on a missing
post and leave the store unchanged; on an existing post they answer 200
and increment exactly the respective counter by 1, so three sequential
likes on a fresh post (likes = 0) yield likes = 3. -/
theorem like_dislike_spec (st : Store) (i : Nat) :
    (findPost st.posts i = none →
      likePost st i = (404, st) ∧ dislikePost st i = (404, st))
    ∧ (∀ p, findPost st.posts i = some p →
        (likePost st i).1 = 200
        ∧ findPost (likePost st i).2.posts i = some { p with likes := p.likes + 1 }
        ∧ (dislikePost st i).1 = 200
        ∧ findPost (dislikePost st i).2.posts i
            = some { p with dislikes := p.dislikes + 1 })
    ∧ (∀ p, findPost st.posts i = some p → p.likes = 0 →
        findPost ((likePost ((likePost ((likePost st i).2) i).2) i).2).posts i
          = some { p with likes := 3 }) := by
  have hlike : ∀ st' : Store, ∀ q, findPost st'.posts i = some q →
      (likePost st' i).1 = 200
      ∧ findPost (likePost st' i).2.posts i = some { q with likes := q.likes + 1 } := by
    intro st' q hq
    constructor
    · simp [likePost, hq]
    · have hm := findPost_map_self st'.posts i
        (fun r => { r with likes := r.likes + 1 }) (fun r => rfl)
      simp [likePost, hq]
      simpa [hq] using hm
  refine ⟨?_, ?_, ?_⟩
  · intro h
    exact ⟨by simp [likePost, h], by simp [dislikePost, h]⟩
  · intro p hp
    refine ⟨(hlike st p hp).1, (hlike st p hp).2, ?_, ?_⟩
    · simp [dislikePost, hp]
    · have hm := findPost_map_self st.posts i
        (fun r => { r with dislikes := r.dislikes + 1 }) (fun r => rfl)
      simp [dislikePost, hp]
      simpa [hp] using hm
  · intro p hp h0
    have h1 := (hlike st p hp).2
    have h2 := (hlike _ _ h1).2
    have h3 := (hlike _ _ h2).2
    rw [h3, h0]

/-- Witness for `like_dislike_spec`: three likes on a concrete fresh
post yield a likes counter of 3. -/
theorem like_dislike_spec_witness :
    findPost ((likePost ((likePost ((likePost
        ⟨[], [⟨5, "T", "C", 1, 0, 0⟩], 0, 6⟩ 5).2) 5).2) 5).2).posts 5
      = some ⟨5, "T", "C", 1, 3, 0⟩ := by
  exact (like_dislike_spec ⟨[], [⟨5, "T", "C", 1, 0, 0⟩], 0, 6⟩ 5).2.2
    ⟨5, "T", "C", 1, 0, 0⟩ (by decide) (by decide)

/-! ### Sequential signup runs (C3) -/

/-- Executing a list of signup requests (username, password) one after
another against the store. -/
def runSignups (st : Store) : List (Option String × Option String) → Store
  | [] => st
  | (u, p) :: rest => runSignups (signup st u p).2 rest

/-- How many of the signup requests, executed sequentially from `st`,
carry username `u` and succeed with 201. -/
def succCount (st : Store) (u : String) : List (Option String × Option String) → Nat
  | [] => 0
  | (un, pw) :: rest =>
      (if un = some u ∧ (signup st un pw).1 = 201 then 1 else 0)
      + succCount (signup st un pw).2 u rest

/-- The spec invariant: no two stored users share a username. -/
def uniqUsernames (users : List User) : Prop :=
  users.Pairwise (fun a b => a.username ≠ b.username)

/-- A signup never removes an existing first match for a username. -/
theorem signup_preserves_found {st : Store} {u : String} {v : User}
    (un pw : Option String) (h : findOneUser st.users u = some v) :
    findOneUser (signup st un pw).2.users u = some v := by
  unfold signup
  by_cases hfal : (falsyStr un || falsyStr pw) = true
  · simp [hfal, h]
  · rw [if_neg (by simpa using hfal)]
    cases hex : findOneUser st.users (un.getD "") with
    | some w => simpa using h
    | none =>
        simp only [findOneUser] at h ⊢
        exact find?_append_some _ h

/-- A signup for an already-present username cannot answer 201. -/
theorem signup_not_created_of_found {st : Store} {u : String} {v : User}
    (pw : Option String) (h : findOneUser st.users u = some v) :
    (signup st (some u) pw).1 ≠ 201 := by
  unfold signup
  by_cases hfal : (falsyStr (some u) || falsyStr pw) = true
  · simp [hfal]
  · rw [if_neg (by simpa using hfal)]
    have hu : ¬ u = "" := by
      intro he
      simp [falsyStr, he] at hfal
    simp [h]

/-- A signup for an already-present username with well-formed fields
answers exactly 409. -/
theorem signup_conflict {st : Store} {u : String} {v : User} {pw : Option String}
    (h : findOneUser st.users u = some v) (hu : u ≠ "")
    (hpw : falsyStr pw = false) :
    (signup st (some u) pw).1 = 409 := by
  unfold signup
  have h1 : falsyStr (some u) = false := by simp [falsyStr, hu]
  rw [if_neg (by simp [h1, hpw])]
  simp [h]

/-- A successful signup makes its username findable afterwards. -/
theorem signup_success_found {st : Store} {un pw : Option String}
    (h : (signup st un pw).1 = 201) :
    findOneUser (signup st un pw).2.users (un.getD "")
      = some ⟨st.nextUserId, un.getD "", bcryptHash (pw.getD "")⟩ := by
  unfold signup at h ⊢
  by_cases hfal : (falsyStr un || falsyStr pw) = true
  · simp [hfal] at h
  · rw [if_neg (by simpa using hfal)] at h ⊢
    cases hex : findOneUser st.users (un.getD "") with
    | some w => simp [hex] at h
    | none =>
        simp only [hex]
        simp only [findOneUser] at hex ⊢
        rw [find?_append_none _ hex]
        simp

/-- With the looked-up username already stored, no request in a
sequential run counts as a 201 success for it. -/
theorem succCount_eq_zero_of_found (u : String)
    (reqs : List (Option String × Option String)) :
    ∀ (st : Store) (v : User), findOneUser st.users u = some v →
      succCount st u reqs = 0 := by
  induction reqs with
  | nil => intro st v _; rfl
  | cons r rest ih =>
      intro st v h
      obtain ⟨un, pw⟩ := r
      rw [succCount]
      have hz : ¬ (un = some u ∧ (signup st un pw).1 = 201) := by
        rintro ⟨rfl, h201⟩
        exact signup_not_created_of_found pw h h201
      rw [if_neg hz, ih _ v (signup_preserves_found un pw h)]

/-- In a sequential run at most one request with username `u` answers
201. -/
theorem succCount_le_one (u : String)
    (reqs : List (Option String × Option String)) :
    ∀ st : Store, succCount st u reqs ≤ 1 := by
  induction reqs with
  | nil => intro st; exact Nat.zero_le 1
  | cons r rest ih =>
      intro st
      obtain ⟨un, pw⟩ := r
      rw [succCount]
      by_cases hc : un = some u ∧ (signup st un pw).1 = 201
      · obtain ⟨rfl, h201⟩ := hc
        have hfound := signup_success_found h201
        rw [if_pos ⟨rfl, h201⟩,
            succCount_eq_zero_of_found u rest _ _ (by simpa using hfound)]
      · rw [if_neg hc]
        simpa using ih (signup st un pw).2

/-- A signup preserves the username-uniqueness invariant. -/
theorem signup_preserves_uniq (st : Store) (un pw : Option String)
    (h : uniqUsernames st.users) : uniqUsernames (signup st un pw).2.users := by
  unfold signup
  by_cases hfal : (falsyStr un || falsyStr pw) = true
  · simpa [hfal] using h
  · rw [if_neg (by simpa using hfal)]
    cases hex : findOneUser st.users (un.getD "") with
    | some w => simpa using h
    | none =>
        simp only
        rw [uniqUsernames, List.pairwise_append]
        refine ⟨h, by simp, ?_⟩
        intro a ha b hb
        simp only [List.mem_singleton] at hb
        subst hb
        have := List.find?_eq_none.mp hex a ha
        simpa using this

/-- A run of signups preserves the found username and the uniqueness
invariant. -/
theorem runSignups_preserves_found
    (reqs : List (Option String × Option String)) :
    ∀ (st : Store) (u : String) (v : User), findOneUser st.users u = some v →
      findOneUser (runSignups st reqs).users u = some v := by
  induction reqs with
  | nil => intro st u v h; exact h
  | cons r rest ih =>
      intro st u v h
      obtain ⟨un, pw⟩ := r
      exact ih _ _ _ (signup_preserves_found un pw h)

/-- C3: executed sequentially, at most one signup per username answers
201; once a signup for `u` has succeeded, every later well-formed signup
for `u` answers 409; and a store with pairwise-distinct usernames keeps
them pairwise distinct through any run of signups. -/
theorem signup_unique_username (st : Store) (u : String)
    (huniq : uniqUsernames st.users) :
    (∀ reqs, succCount st u reqs ≤ 1)
    ∧ (∀ pw0 pw reqs, (signup st (some u) pw0).1 = 201 → falsyStr pw = false →
        (signup (runSignups (signup st (some u) pw0).2 reqs) (some u) pw).1 = 409)
    ∧ (∀ reqs, uniqUsernames (runSignups st reqs).users) := by
  refine ⟨fun reqs => succCount_le_one u reqs st, ?_, ?_⟩
  · intro pw0 pw reqs h201 hpw
    have hu : u ≠ "" := by
      intro he
      subst he
      simp [signup, falsyStr] at h201
    have hfound := signup_success_found h201
    simp only [Option.getD_some] at hfound
    exact signup_conflict (runSignups_preserves_found reqs _ u _ hfound) hu hpw
  · intro reqs
    induction reqs generalizing st with
    | nil => exact huniq
    | cons r rest ih =>
        obtain ⟨un, pw⟩ := r
        exact ih _ (signup_preserves_uniq st un pw huniq)

/-- Witness for `signup_unique_username`: from the empty store, after a
successful signup of `alice`, a second signup of `alice` answers 409. -/
theorem signup_unique_username_witness :
    (signup (runSignups (signup ⟨[], [], 0, 0⟩ (some "alice") (some "pw1")).2 [])
        (some "alice") (some "pw2")).1 = 409 := by
  exact (signup_unique_username ⟨[], [], 0, 0⟩ "alice"
      (by simp [uniqUsernames])).2.1
    (some "pw1") (some "pw2") [] (by decide) (by decide)

/-! ### Password hashing (C5) and post-field validation (C6) -/

/-- C5: the stored password hash never equals the plaintext supplied at
signup, the bcrypt comparison accepts exactly the original password,
and a successful signup stores precisely the hash (never the
plaintext). -/
theorem password_hash_spec :
    (∀ pw, bcryptHash pw ≠ pw)
    ∧ (∀ pw pw', bcryptCompare pw' (bcryptHash pw) = true ↔ pw' = pw)
    ∧ (∀ (st : Store) (un pw : String), (signup st (some un) (some pw)).1 = 201 →
        findOneUser (signup st (some un) (some pw)).2.users un
          = some ⟨st.nextUserId, un, bcryptHash pw⟩) := by
  have hne : ∀ pw : String, bcryptHash pw ≠ pw := by
    intro pw h
    have h2 := congrArg String.length h
    rw [bcryptHash, String.length_append] at h2
    have h7 : ("$2b$10$" : String).length = 7 := rfl
    omega
  refine ⟨hne, ?_, ?_⟩
  · intro pw pw'
    constructor
    · intro h
      simp only [bcryptCompare, decide_eq_true_eq] at h
      have hd := congrArg String.data h
      rw [bcryptHash, bcryptHash, String.data_append, String.data_append] at hd
      exact String.ext (List.append_cancel_left hd)
    · rintro rfl
      simp [bcryptCompare]
  · intro st un pw h
    simpa using signup_success_found h

/-- Witness for `password_hash_spec`: a concrete successful signup
stores the bcrypt hash of `pw`, which differs from `pw`. -/
theorem password_hash_spec_witness :
    findOneUser (signup ⟨[], [], 7, 0⟩ (some "alice") (some "pw")).2.users "alice"
      = some ⟨7, "alice", bcryptHash "pw"⟩ := by
  exact password_hash_spec.2.2 ⟨[], [], 7, 0⟩ "alice" "pw" (by decide)

/-- The invariant of C6: every persisted post has non-empty title and
content. -/
def goodPosts (posts : List Post) : Prop :=
  ∀ p ∈ posts, p.title ≠ "" ∧ p.content ≠ ""

/-- Passing schema validation means both fields are present and
non-empty. -/
theorem validPostFields_nonempty {title content : Option String}
    (h : validPostFields title content = true) :
    title.getD "" ≠ "" ∧ content.getD "" ≠ "" := by
  cases title with
  | none => simp [validPostFields] at h
  | some t =>
      cases content with
      | none => simp [validPostFields] at h
      | some c =>
          simp only [validPostFields, Bool.and_eq_true, decide_eq_true_eq] at h
          simpa using h

/-- C6: every route handler preserves the invariant that persisted
posts have non-empty `title` and `content`; a create or update whose
fields fail schema validation is answered 500 without storing
anything. -/
theorem post_fields_nonempty_invariant
    (decode : String → Token) (secret : String) (now : Nat) (st : Store)
    (header : Option String) (i : Nat) (title content : Option String)
    (hgood : goodPosts st.posts) :
    goodPosts (createPost decode secret now st header title content).2.posts
    ∧ goodPosts (updatePost decode secret now st header i title content).2.posts
    ∧ goodPosts (deletePost decode secret now st header i).2.posts
    ∧ goodPosts (likePost st i).2.posts
    ∧ goodPosts (dislikePost st i).2.posts := by
  refine ⟨?_, ?_, ?_, ?_, ?_⟩
  · cases hauth : authenticateToken decode secret now header with
    | unauthenticated => simpa [createPost, hauth] using hgood
    | forbidden => simpa [createPost, hauth] using hgood
    | ok ident =>
        by_cases hv : validPostFields title content = true
        · obtain ⟨ht, hc⟩ := validPostFields_nonempty hv
          simp only [createPost, hauth, hv, if_true]
          intro p hp
          rcases List.mem_append.mp hp with hl | hr
          · exact hgood p hl
          · simp only [List.mem_singleton] at hr
            subst hr
            exact ⟨ht, hc⟩
        · simpa [createPost, hauth, hv] using hgood
  · cases hauth : authenticateToken decode secret now header with
    | unauthenticated => simpa [updatePost, hauth] using hgood
    | forbidden => simpa [updatePost, hauth] using hgood
    | ok ident =>
        cases hfp : findPost st.posts i with
        | none => simpa [updatePost, hauth, hfp] using hgood
        | some post =>
            by_cases howner : post.user ≠ ident.userId
            · simpa [updatePost, hauth, hfp, howner] using hgood
            · by_cases hv : validPostFields title content = true
              · obtain ⟨ht, hc⟩ := validPostFields_nonempty hv
                simp only [updatePost, hauth, hfp, howner, hv, if_false, if_true,
                  ite_false, ite_true]
                intro p hp
                rcases List.mem_map.mp hp with ⟨q, hq, rfl⟩
                by_cases hqi : q.id = i
                · simpa [hqi] using ⟨ht, hc⟩
                · simpa [hqi] using hgood q hq
              · simpa [updatePost, hauth, hfp, howner, hv] using hgood
  · cases hauth : authenticateToken decode secret now header with
    | unauthenticated => simpa [deletePost, hauth] using hgood
    | forbidden => simpa [deletePost, hauth] using hgood
    | ok ident =>
        cases hfp : findPost st.posts i with
        | none => simpa [deletePost, hauth, hfp] using hgood
        | some post =>
            by_cases howner : post.user ≠ ident.userId
            · simpa [deletePost, hauth, hfp, howner] using hgood
            · simp only [deletePost, hauth, hfp, howner, if_false, ite_false,
                ite_true]
              intro p hp
              exact hgood p (List.mem_of_mem_filter hp)
  · cases hfp : findPost st.posts i with
    | none => simpa [likePost, hfp] using hgood
    | some post =>
        simp only [likePost, hfp]
        intro p hp
        rcases List.mem_map.mp hp with ⟨q, hq, rfl⟩
        by_cases hqi : q.id = i
        · simpa [hqi] using hgood q hq
        · simpa [hqi] using hgood q hq
  · cases hfp : findPost st.posts i with
    | none => simpa [dislikePost, hfp] using hgood
    | some post =>
        simp only [dislikePost, hfp]
        intro p hp
        rcases List.mem_map.mp hp with ⟨q, hq, rfl⟩
        by_cases hqi : q.id = i
        · simpa [hqi] using hgood q hq
        · simpa [hqi] using hgood q hq

/-- Witness for `post_fields_nonempty_invariant`: creating a post with
non-empty fields from the empty store keeps the invariant. -/
theorem post_fields_nonempty_invariant_witness :
    goodPosts (createPost (fun _ => Token.signed ⟨1, "alice", 3600⟩ "s") "s" 0
        ⟨[], [], 0, 0⟩ (some "Bearer t") (some "T") (some "C")).2.posts := by
  exact (post_fields_nonempty_invariant (fun _ => Token.signed ⟨1, "alice", 3600⟩ "s")
      "s" 0 ⟨[], [], 0, 0⟩ (some "Bearer t") 0 (some "T") (some "C")
      (by simp [goodPosts])).1

/-! ### Frame conditions (C8) -/

/-- Owner references survive the step from `st` to `st'`: any post id
resolvable in both stores resolves to the same owner. -/
def ownersPreserved (st st' : Store) : Prop :=
  ∀ j q q', findPost st.posts j = some q → findPost st'.posts j = some q' →
    q'.user = q.user

/-- An in-place update that keeps id and owner keeps every resolvable
owner. -/
theorem owners_of_map {l : List Post} {i j : Nat} {q q' : Post}
    (upd : Post → Post) (hid : ∀ p, (upd p).id = p.id)
    (huser : ∀ p, (upd p).user = p.user)
    (hq : findPost l j = some q)
    (hq' : findPost (l.map fun p => if p.id = i then upd p else p) j = some q') :
    q'.user = q.user := by
  by_cases hji : j = i
  · subst hji
    rw [findPost_map_self l j upd hid, hq] at hq'
    have : q' = upd q := by injection hq' with h; exact h.symm
    rw [this, huser]
  · rw [findPost_map_other l i j hji upd hid, hq] at hq'
    have : q' = q := by injection hq' with h; exact h.symm
    rw [this]

/-- Deleting one id keeps every other resolvable owner. -/
theorem owners_of_filter {l : List Post} {i j : Nat} {q q' : Post}
    (hq : findPost l j = some q)
    (hq' : findPost (l.filter fun p => ¬ p.id = i) j = some q') :
    q'.user = q.user := by
  by_cases hji : j = i
  · subst hji
    rw [findPost_filter_self] at hq'
    exact absurd hq' (by simp)
  · rw [findPost_filter_other l i j hji, hq] at hq'
    have : q' = q := by injection hq' with h; exact h.symm
    rw [this]

/-- Appending new records keeps every previously resolvable owner. -/
theorem owners_of_append {l l2 : List Post} {j : Nat} {q q' : Post}
    (hq : findPost l j = some q)
    (hq' : findPost (l ++ l2) j = some q') :
    q'.user = q.user := by
  rw [findPost] at hq'
  rw [find?_append_some l2 hq] at hq'
  have : q' = q := by injection hq' with h; exact h.symm
  rw [this]

/-- C8: a successful update overwrites exactly the target post's title
and content — its id, owner, likes and dislikes are untouched, and no
other post changes — and no operation (update, delete, like, dislike,
create) ever changes the owner of a post that stays resolvable. -/
theorem update_frame_owner_immutable
    (decode : String → Token) (secret : String) (now : Nat) (st : Store)
    (header : Option String) (i : Nat) (title content : Option String) :
    (∀ ident post, authenticateToken decode secret now header = .ok ident →
      findPost st.posts i = some post →
      post.user = ident.userId →
      validPostFields title content = true →
      (updatePost decode secret now st header i title content).1 = 200
      ∧ findPost (updatePost decode secret now st header i title content).2.posts i
          = some { post with title := title.getD "", content := content.getD "" }
      ∧ ∀ j, j ≠ i →
          findPost (updatePost decode secret now st header i title content).2.posts j
            = findPost st.posts j)
    ∧ ownersPreserved st (updatePost decode secret now st header i title content).2
    ∧ ownersPreserved st (deletePost decode secret now st header i).2
    ∧ ownersPreserved st (likePost st i).2
    ∧ ownersPreserved st (dislikePost st i).2
    ∧ ownersPreserved st (createPost decode secret now st header title content).2 := by
  refine ⟨?_, ?_, ?_, ?_, ?_, ?_⟩
  · intro ident post hauth hp howner hv
    have hno : ¬ (post.user ≠ ident.userId) := fun h => h howner
    have hres : updatePost decode secret now st header i title content
        = (200, { st with posts := st.posts.map (fun p =>
            if p.id = i then
              { p with title := title.getD "", content := content.getD "" }
            else p) }) := by
      simp [updatePost, hauth, hp, hno, hv]
    refine ⟨by rw [hres], ?_, ?_⟩
    · rw [hres]
      have hm := findPost_map_self st.posts i
        (fun r => { r with title := title.getD "", content := content.getD "" })
        (fun r => rfl)
      rw [hp] at hm
      simpa using hm
    · intro j hj
      rw [hres]
      exact findPost_map_other st.posts i j hj
        (fun r => { r with title := title.getD "", content := content.getD "" })
        (fun r => rfl)
  · intro j q q' hq hq'
    cases hauth : authenticateToken decode secret now header with
    | unauthenticated =>
        have hres : updatePost decode secret now st header i title content
            = (401, st) := by simp [updatePost, hauth]
        rw [hres] at hq'
        have hq2 : findPost st.posts j = some q' := hq'
        rw [hq] at hq2; injection hq2 with h; rw [← h]
    | forbidden =>
        have hres : updatePost decode secret now st header i title content
            = (403, st) := by simp [updatePost, hauth]
        rw [hres] at hq'
        have hq2 : findPost st.posts j = some q' := hq'
        rw [hq] at hq2; injection hq2 with h; rw [← h]
    | ok ident =>
        cases hfp : findPost st.posts i with
        | none =>
            have hres : updatePost decode secret now st header i title content
                = (404, st) := by simp [updatePost, hauth, hfp]
            rw [hres] at hq'
            have hq2 : findPost st.posts j = some q' := hq'
            rw [hq] at hq2; injection hq2 with h; rw [← h]
        | some post =>
            by_cases howner : post.user ≠ ident.userId
            · have hres : updatePost decode secret now st header i title content
                  = (403, st) := by simp [updatePost, hauth, hfp, howner]
              rw [hres] at hq'
              have hq2 : findPost st.posts j = some q' := hq'
              rw [hq] at hq2; injection hq2 with h; rw [← h]
            · by_cases hv : validPostFields title content = true
              · have hres : updatePost decode secret now st header i title content
                    = (200, { st with posts := st.posts.map (fun p =>
                        if p.id = i then
                          { p with title := title.getD "", content := content.getD "" }
                        else p) }) := by
                  simp [updatePost, hauth, hfp, howner, hv]
                rw [hres] at hq'
                exact owners_of_map
                  (fun r => { r with title := title.getD "", content := content.getD "" })
                  (fun r => rfl) (fun r => rfl) hq hq'
              · have hres : updatePost decode secret now st header i title content
                    = (500, st) := by simp [updatePost, hauth, hfp, howner, hv]
                rw [hres] at hq'
                have hq2 : findPost st.posts j = some q' := hq'
                rw [hq] at hq2; injection hq2 with h; rw [← h]
  · intro j q q' hq hq'
    cases hauth : authenticateToken decode secret now header with
    | unauthenticated =>
        have hres : deletePost decode secret now st header i = (401, st) := by
          simp [deletePost, hauth]
        rw [hres] at hq'
        have hq2 : findPost st.posts j = some q' := hq'
        rw [hq] at hq2; injection hq2 with h; rw [← h]
    | forbidden =>
        have hres : deletePost decode secret now st header i = (403, st) := by
          simp [deletePost, hauth]
        rw [hres] at hq'
        have hq2 : findPost st.posts j = some q' := hq'
        rw [hq] at hq2; injection hq2 with h; rw [← h]
    | ok ident =>
        cases hfp : findPost st.posts i with
        | none =>
            have hres : deletePost decode secret now st header i = (404, st) := by
              simp [deletePost, hauth, hfp]
            rw [hres] at hq'
            have hq2 : findPost st.posts j = some q' := hq'
            rw [hq] at hq2; injection hq2 with h; rw [← h]
        | some post =>
            by_cases howner : post.user ≠ ident.userId
            · have hres : deletePost decode secret now st header i = (403, st) := by
                simp [deletePost, hauth, hfp, howner]
              rw [hres] at hq'
              have hq2 : findPost st.posts j = some q' := hq'
              rw [hq] at hq2; injection hq2 with h; rw [← h]
            · have hres : deletePost decode secret now st header i
                  = (200, { st with
                      posts := st.posts.filter (fun p => ¬ p.id = i) }) := by
                simp [deletePost, hauth, hfp, howner]
              rw [hres] at hq'
              exact owners_of_filter hq hq'
  · intro j q q' hq hq'
    cases hfp : findPost st.posts i with
    | none =>
        have hres : likePost st i = (404, st) := by simp [likePost, hfp]
        rw [hres] at hq'
        have hq2 : findPost st.posts j = some q' := hq'
        rw [hq] at hq2; injection hq2 with h; rw [← h]
    | some post =>
        have hres : likePost st i
            = (200, { st with posts := st.posts.map (fun p =>
                if p.id = i then { p with likes := p.likes + 1 } else p) }) := by
          simp [likePost, hfp]
        rw [hres] at hq'
        exact owners_of_map (fun r => { r with likes := r.likes + 1 })
          (fun r => rfl) (fun r => rfl) hq hq'
  · intro j q q' hq hq'
    cases hfp : findPost st.posts i with
    | none =>
        have hres : dislikePost st i = (404, st) := by simp [dislikePost, hfp]
        rw [hres] at hq'
        have hq2 : findPost st.posts j = some q' := hq'
        rw [hq] at hq2; injection hq2 with h; rw [← h]
    | some post =>
        have hres : dislikePost st i
            = (200, { st with posts := st.posts.map (fun p =>
                if p.id = i then { p with dislikes := p.dislikes + 1 } else p) }) := by
          simp [dislikePost, hfp]
        rw [hres] at hq'
        exact owners_of_map (fun r => { r with dislikes := r.dislikes + 1 })
          (fun r => rfl) (fun r => rfl) hq hq'
  · intro j q q' hq hq'
    cases hauth : authenticateToken decode secret now header with
    | unauthenticated =>
        have hres : createPost decode secret now st header title content
            = (401, st) := by simp [createPost, hauth]
        rw [hres] at hq'
        have hq2 : findPost st.posts j = some q' := hq'
        rw [hq] at hq2; injection hq2 with h; rw [← h]
    | forbidden =>
        have hres : createPost decode secret now st header title content
            = (403, st) := by simp [createPost, hauth]
        rw [hres] at hq'
        have hq2 : findPost st.posts j = some q' := hq'
        rw [hq] at hq2; injection hq2 with h; rw [← h]
    | ok ident =>
        by_cases hv : validPostFields title content = true
        · have hres : createPost decode secret now st header title content
              = (201, { st with
                  posts := st.posts ++
                    [⟨st.nextPostId, title.getD "", content.getD "",
                      ident.userId, 0, 0⟩],
                  nextPostId := st.nextPostId + 1 }) := by
            simp [createPost, hauth, hv]
          rw [hres] at hq'
          exact owners_of_append hq hq'
        · have hres : createPost decode secret now st header title content
              = (500, st) := by simp [createPost, hauth, hv]
          rw [hres] at hq'
          have hq2 : findPost st.posts j = some q' := hq'
          rw [hq] at hq2; injection hq2 with h; rw [← h]

/-- Witness for `update_frame_owner_immutable`: a concrete owner update
keeps id, owner and counters while replacing title and content. -/
theorem update_frame_owner_immutable_witness :
    findPost (updatePost (fun _ => Token.signed ⟨1, "alice", 3600⟩ "s") "s" 0
        ⟨[], [⟨10, "T", "C", 1, 4, 2⟩], 0, 11⟩ (some "Bearer t") 10
        (some "T2") (some "C2")).2.posts 10
      = some ⟨10, "T2", "C2", 1, 4, 2⟩ := by
  exact ((update_frame_owner_immutable (fun _ => Token.signed ⟨1, "alice", 3600⟩ "s")
      "s" 0 ⟨[], [⟨10, "T", "C", 1, 4, 2⟩], 0, 11⟩ (some "Bearer t") 10
      (some "T2") (some "C2")).1 ⟨1, "alice", 3600⟩ ⟨10, "T", "C", 1, 4, 2⟩
      (by decide) (by decide) rfl (by decide)).2.1

/-! ### Noninterference of password hashes with listing (C9) -/

/-- Two user collections agreeing on ids and usernames (differing at
most in password hashes) populate identically. -/
theorem findUser_populate_congr {users1 users2 : List User}
    (h : List.Forall₂ (fun u v => u.id = v.id ∧ u.username = v.username)
      users1 users2) (i : Nat) :
    (findUserById users1 i).map (fun u => (u.id, u.username))
      = (findUserById users2 i).map (fun u => (u.id, u.username)) := by
  induction h with
  | nil => rfl
  | @cons a b as bs h1 h2 ih =>
      by_cases hi : a.id = i
      · have hbi : b.id = i := by rw [← h1.1]; exact hi
        rw [findUserById, List.find?_cons_of_pos _ (by simpa using hi),
            findUserById, List.find?_cons_of_pos _ (by simpa using hbi)]
        simp [h1.1, h1.2]
      · have hbi : ¬ b.id = i := by rw [← h1.1]; exact hi
        rw [findUserById, List.find?_cons_of_neg _ (by simpa using hi),
            findUserById, List.find?_cons_of_neg _ (by simpa using hbi)]
        exact ih

/-- C9: the `GET /posts` response is independent of every stored user's
password hash — two stores with the same posts whose user records agree
on id and username (but may differ in the stored hash) produce the same
listing. -/
theorem list_posts_password_independent (st1 st2 : Store)
    (hposts : st1.posts = st2.posts)
    (husers : List.Forall₂ (fun u v => u.id = v.id ∧ u.username = v.username)
      st1.users st2.users) :
    listPosts st1 = listPosts st2 := by
  unfold listPosts
  rw [hposts]
  apply List.map_congr_left
  intro p _
  rw [findUser_populate_congr husers p.user]

/-- Witness for `list_posts_password_independent`: stores differing only
in the stored hash list the same response. -/
theorem list_posts_password_independent_witness :
    listPosts ⟨[⟨1, "alice", "hashA"⟩], [⟨5, "T", "C", 1, 0, 0⟩], 2, 6⟩
      = listPosts ⟨[⟨1, "alice", "hashB"⟩], [⟨5, "T", "C", 1, 0, 0⟩], 2, 6⟩ := by
  exact list_posts_password_independent
    ⟨[⟨1, "alice", "hashA"⟩], [⟨5, "T", "C", 1, 0, 0⟩], 2, 6⟩
    ⟨[⟨1, "alice", "hashB"⟩], [⟨5, "T", "C", 1, 0, 0⟩], 2, 6⟩
    rfl (List.Forall₂.cons ⟨rfl, rfl⟩ List.Forall₂.nil)

/-! ### The scheme prefix is never checked (C10) -/

/-- Splitting at a separator that first occurs right after a
separator-free prefix. -/
theorem splitChar_head_sep (sep : Char) (l1 l2 : List Char) (h : sep ∉ l1) :
    splitChar sep (l1 ++ sep :: l2) = l1 :: splitChar sep l2 := by
  induction l1 with
  | nil => simp [splitChar]
  | cons c cs ih =>
      have hcs : sep ∉ cs := fun hm => h (List.mem_cons_of_mem c hm)
      have hc : ¬ c = sep := by
        intro he
        exact h (by rw [he]; exact List.mem_cons_self sep cs)
      rw [List.cons_append, splitChar, ih hcs]
      simp [hc]

/-- The token extraction never looks at the scheme: any space-free
scheme word in front of the token yields the same extraction as
`Bearer`. -/
theorem extractToken_scheme_irrelevant (scheme tok : String)
    (h : ' ' ∉ scheme.data) :
    extractToken (some (scheme ++ " " ++ tok))
      = extractToken (some ("Bearer" ++ " " ++ tok)) := by
  have hdata : ∀ s : String, (s ++ " " ++ tok).data = s.data ++ ' ' :: tok.data := by
    intro s
    have hsp : (" " : String).data = [' '] := rfl
    rw [String.data_append, String.data_append, hsp]
    simp
  have hB : ' ' ∉ ("Bearer" : String).data := by decide
  simp only [extractToken, jsSplit, hdata, splitChar_head_sep ' ' _ _ h,
    splitChar_head_sep ' ' _ _ hB, List.map_cons, List.getElem?_cons_succ]

/-- C10: `authenticateToken` treats any two-part Authorization header
the same regardless of its scheme word — the prefix is never compared
to `Bearer`, so `Basic <token>` verifies exactly like
`Bearer <token>`. -/
theorem auth_scheme_ignored (decode : String → Token) (secret : String)
    (now : Nat) (scheme tok : String) (h : ' ' ∉ scheme.data) :
    authenticateToken decode secret now (some (scheme ++ " " ++ tok))
      = authenticateToken decode secret now (some ("Bearer" ++ " " ++ tok)) := by
  unfold authenticateToken
  rw [extractToken_scheme_irrelevant scheme tok h]

/-- Witness for `auth_scheme_ignored`: a `Basic`-prefixed header
verifies exactly like the `Bearer`-prefixed one. -/
theorem auth_scheme_ignored_witness :
    authenticateToken (fun _ => Token.signed ⟨1, "alice", 3600⟩ "s") "s" 0
        (some ("Basic" ++ " " ++ "tok"))
      = authenticateToken (fun _ => Token.signed ⟨1, "alice", 3600⟩ "s") "s" 0
        (some ("Bearer" ++ " " ++ "tok")) := by
  exact auth_scheme_ignored (fun _ => Token.signed ⟨1, "alice", 3600⟩ "s") "s" 0
    "Basic" "tok" (by decide)

/-- After a successful signup of `alice`, a subsequent signup request
carrying the same username but no password is answered 400
(InvalidInput), not 409 (Conflict): the falsiness check runs before the
uniqueness lookup. -/
theorem signup_conflict_counterexample :
    (signup ⟨[], [], 0, 0⟩ (some "alice") (some "pw1")).1 = 201
    ∧ (signup (signup ⟨[], [], 0, 0⟩ (some "alice") (some "pw1")).2
        (some "alice") none).1 = 400 := by
  decide
